import Mathlib

/-! LoggerLib: a shallow embedding of the logging library and its dispatch worker.

Sources embedded here:

* `logger/include/Logger/Logger.h`, `logger/src/Logger.cpp`: `LogLevel`,
  `ILogDestination`, `FileDestination`, `SocketDestination`, `Logger`;
* `app/main.cpp`: `LogTask`, the global queue, `logger_thread_func` and the
  enqueue / signal-finish parts of `main`.

Conventions.

* `std::string` is a finite sequence of `char`, modelled as `List Char`.
* An object is a record of its data members; a member function takes the
  object and returns the object after the call.
* A call that may leave by an exception returns an `Outcome`.
* A call during which a signal may end the process returns a `Call`.
* Values obtained from the operating system (the clock, the result of opening
  a file, the return value of `::send`) are explicit arguments.
* The socket code is the `__linux__` branch of the source.
-/

namespace LoggerLib

/-- A `std::string`. -/
abbrev Str := List Char

/-! ## `LogLevel` -/

/-- The scoped enumeration `enum class LogLevel`, carried by its underlying `int`. -/
structure LogLevel where
  val : Int
deriving DecidableEq

namespace LogLevel

/-- Enumerator `Error = 0`. -/
def Error : LogLevel := ⟨0⟩

/-- Enumerator `Warning = 1`. -/
def Warning : LogLevel := ⟨1⟩

/-- Enumerator `Info = 2`. -/
def Info : LogLevel := ⟨2⟩

end LogLevel

/-! ## Exceptions -/

/-- How a call ends: it returns, or it leaves by an exception. Either way the
object it was called on is in the state `a` afterwards. -/
inductive Outcome (α : Type) where
  | returned (a : α)
  | threw (a : α)
deriving DecidableEq

/-- The state carried by an outcome. -/
def Outcome.state {α : Type} : Outcome α → α
  | .returned a => a
  | .threw a => a

/-- The interface `ILogDestination`: one pure virtual member function,
`virtual void WriteLogLine(const std::string& line) = 0`. An implementation
with objects of type `σ` supplies that function. -/
structure ILogDestination (σ : Type) where
  WriteLogLine : Str → σ → Outcome σ

/-! ## `std::ostringstream` and line formatting -/

/-- A `std::ostringstream`: the characters inserted so far. -/
structure ostringstream where
  buf : Str
deriving DecidableEq

/-- A default-constructed stream. -/
def ostringstream.empty : ostringstream := ⟨[]⟩

/-- The insertion `oss << s` of a string. -/
def ostringstream.put (oss : ostringstream) (s : Str) : ostringstream :=
  ⟨oss.buf ++ s⟩

/-- The member `oss.str()`. -/
def ostringstream.str (oss : ostringstream) : Str := oss.buf

/-- `Logger::LevelToString`. -/
def LevelToString (level : LogLevel) : Str :=
  if level = LogLevel.Error then "Error".toList
  else if level = LogLevel.Warning then "Warning".toList
  else if level = LogLevel.Info then "Info".toList
  else "Unknown".toList

/-- `Logger::FormatLogLine`; `ts` is the string `GetTimestamp()` returns for
this call. -/
def FormatLogLine (ts : Str) (message : Str) (level : LogLevel) : Str :=
  (((((ostringstream.empty.put ts).put " [".toList).put (LevelToString level)).put
    "] ".toList).put message).str

/-! ## `Logger` -/

/-- The data members of `Logger`. `destinations_` is the vector of
`unique_ptr<ILogDestination>`; a null pointer is `none`. The two mutexes carry
no data. -/
structure Logger (σ : Type) where
  current_level_ : LogLevel
  destinations_ : List (Option σ)

/-- What one call of `Logger::Log` did: the logger afterwards, the line it
formatted (when it got that far), and the calls `dest->WriteLogLine(line)` it
made, in the order it made them, each as the position of the destination in
`destinations_` and the argument. -/
structure LogResult (σ : Type) where
  logger : Logger σ
  line : Option Str
  calls : List (Nat × Str)

namespace Logger

variable {σ : Type}

/-- The constructor `Logger::Logger(LogLevel default_level)`. -/
def new (default_level : LogLevel) : Logger σ :=
  { current_level_ := default_level, destinations_ := [] }

/-- `Logger::SetLogLevel`. -/
def SetLogLevel (level : LogLevel) (lg : Logger σ) : Logger σ :=
  { lg with current_level_ := level }

/-- `Logger::GetLogLevel`: the value returned and the logger afterwards. -/
def GetLogLevel (lg : Logger σ) : LogLevel × Logger σ :=
  (lg.current_level_, lg)

/-- The `push_back(std::make_unique<...>(...))` of `AddFileDestination` and
`AddSocketDestination`, for an already constructed destination object `d`. -/
def AddDestination (d : σ) (lg : Logger σ) : Logger σ :=
  { lg with destinations_ := lg.destinations_ ++ [some d] }

/-- The statement `try { dest->WriteLogLine(line); } catch (...) { }`. -/
def tryWriteLogLine (I : ILogDestination σ) (line : Str) (d : σ) : Outcome σ :=
  match I.WriteLogLine line d with
  | .returned d' => .returned d'
  | .threw d' => .returned d'

/-- The body of the range-for in `Logger::Log`, for the destination at
position `i`: `if (dest) { try { ... } catch (...) { } }`. It gives the slot
afterwards and the calls made. -/
def logBody (I : ILogDestination σ) (line : Str) (i : Nat) :
    Option σ → Outcome (Option σ × List (Nat × Str))
  | none => .returned (none, [])
  | some d =>
    match tryWriteLogLine I line d with
    | .returned d' => .returned (some d', [(i, line)])
    | .threw d' => .threw (some d', [(i, line)])

/-- The loop `for (auto& dest : destinations_) { ... }` of `Logger::Log`, over
the destinations from position `i` on. An exception that leaves the body
leaves the loop. -/
def logLoop (I : ILogDestination σ) (line : Str) :
    Nat → List (Option σ) → Outcome (List (Option σ) × List (Nat × Str))
  | _, [] => .returned ([], [])
  | i, dest :: rest =>
    match logBody I line i dest with
    | .threw (dest', cs) => .threw (dest' :: rest, cs)
    | .returned (dest', cs) =>
      match logLoop I line (i + 1) rest with
      | .returned (rest', cs') => .returned (dest' :: rest', cs ++ cs')
      | .threw (rest', cs') => .threw (dest' :: rest', cs ++ cs')

/-- `Logger::Log(const std::string& message, LogLevel level)`. -/
def Log (I : ILogDestination σ) (ts : Str) (message : Str) (level : LogLevel)
    (lg : Logger σ) : Outcome (LogResult σ) :=
  if level.val > lg.current_level_.val then
    .returned { logger := lg, line := none, calls := [] }
  else
    let line := FormatLogLine ts message level
    match logLoop I line 0 lg.destinations_ with
    | .returned (ds, cs) =>
      .returned { logger := { lg with destinations_ := ds }, line := some line, calls := cs }
    | .threw (ds, cs) =>
      .threw { logger := { lg with destinations_ := ds }, line := some line, calls := cs }

end Logger

/-! ## `std::ofstream` and `FileDestination` -/

/-- A `std::ofstream` together with the file it is attached to: whether a file
is open, the characters inserted but not yet written out, and the content of
the file. -/
structure ofstream where
  is_open : Bool
  pending : Str
  file : Str
deriving DecidableEq

namespace ofstream

/-- The call `ofs.open(filename, std::ios::app)` on a default-constructed
stream. `opened` is what the file system answers: `none` when the file cannot
be opened, `some C` when it can and its content is `C` (`[]` for a file the
call creates). In append mode every write goes to the end of the file. -/
def openAppend (opened : Option Str) : ofstream :=
  match opened with
  | none => { is_open := false, pending := [], file := [] }
  | some C => { is_open := true, pending := [], file := C }

/-- The insertion `ofs << s` of a string (into the stream buffer). -/
def put (ofs : ofstream) (s : Str) : ofstream :=
  { ofs with pending := ofs.pending ++ s }

/-- The member `ofs.flush()`: the buffered characters go to the end of the file. -/
def flush (ofs : ofstream) : ofstream :=
  { ofs with pending := [], file := ofs.file ++ ofs.pending }

/-- The manipulator `std::endl`: insert a newline, then flush. -/
def endl (ofs : ofstream) : ofstream :=
  (ofs.put ['\n']).flush

end ofstream

/-- The data members of `FileDestination` (`file_mutex_` carries no data). -/
structure FileDestination where
  ofs_ : ofstream
deriving DecidableEq

namespace FileDestination

/-- The constructor `FileDestination::FileDestination(filename)`; `opened` is
the answer of the file system for `filename` (see `ofstream.openAppend`). When the
file cannot be opened the constructor only reports it on `std::cerr`. -/
def new (opened : Option Str) : FileDestination :=
  { ofs_ := ofstream.openAppend opened }

/-- `FileDestination::WriteLogLine`. -/
def WriteLogLine (line : Str) (d : FileDestination) : FileDestination :=
  if !d.ofs_.is_open then d
  else { d with ofs_ := ((d.ofs_.put line).endl).flush }

/-- Reading the file back, as the tests do after the writes. -/
def readBack (d : FileDestination) : Str := d.ofs_.file

/-- The calls `WriteLogLine(l)` for the lines `l` of `lines`, one after the
other. -/
def writeAll (lines : List Str) (d : FileDestination) : FileDestination :=
  lines.foldl (fun d l => d.WriteLogLine l) d

/-- `FileDestination` as an implementation of `ILogDestination`: its
`WriteLogLine` has no `throw` and its stream has the default (empty) exception
mask, so every call returns. -/
def asILogDestination : ILogDestination FileDestination :=
  { WriteLogLine := fun line d => .returned (d.WriteLogLine line) }

end FileDestination

/-! ## The TCP socket and `SocketDestination` -/

/-- How a call on a `SocketDestination` ends: it returns, with `a` the state
afterwards; or the process is ended inside `::send` by the signal `SIGPIPE`,
with `a` the state at that moment; or its loop is still running after the
iterations it was given. -/
inductive Call (α : Type) where
  | returned (a : α)
  | killed (a : α)
  | running

/-- The operating system's side of the one TCP socket a `SocketDestination`
uses. `send_rc k n` is the value the call of `::send` on it returns when `k`
calls have returned before and `n` bytes are to be sent. `sigpipe k` says
that, when `k` calls have returned before, the peer has closed the
connection, so that writing to it raises `SIGPIPE`. `results` is the values
the calls of `::send` returned so far, in order; `wire` is the bytes `::send`
has accepted, in order; `closed` lists the descriptors passed to `::close`. -/
structure Net where
  send_rc : Nat → Nat → Int
  sigpipe : Nat → Bool
  results : List Int
  wire : Str
  closed : List Int

/-- The call `::close(fd)`. -/
def Net.close (fd : Int) (net : Net) : Net :=
  { net with closed := net.closed ++ [fd] }

/-- The call `::send(sockfd, buf, len, 0)`. The source passes the flags `0`
(not `MSG_NOSIGNAL`) and nothing in the program changes what `SIGPIPE` does,
so on a connection the peer has closed the signal ends the process inside the
call: `none`. Otherwise the call returns: the value returned and the socket
afterwards. A non-negative return value `r` means the first `r` bytes of `buf`
were accepted. -/
def Net.send (buf : Str) (net : Net) : Option (Int × Net) :=
  if net.sigpipe net.results.length then none
  else
    let r := net.send_rc net.results.length buf.length
    some (r, { net with results := net.results ++ [r],
                        wire := if r < 0 then net.wire else net.wire ++ buf.take r.toNat })

/-- The data members of `SocketDestination` (`sock_mutex_` carries no data). -/
structure SocketDestination where
  sockfd_ : Int
  connected_ : Bool
deriving DecidableEq

namespace SocketDestination

/-- The constructor `SocketDestination::SocketDestination(host, port)`. The
answers of the operating system are arguments: `rc` and `res_null` for
`getaddrinfo` (its return value, and whether `res` is still null), `fd` for
`::socket`, `conn_rc` for `::connect`. -/
def new (rc : Int) (res_null : Bool) (fd : Int) (conn_rc : Int) (net : Net) :
    SocketDestination × Net :=
  if rc ≠ 0 ∨ res_null = true then
    ({ sockfd_ := -1, connected_ := false }, net)
  else if fd < 0 then
    ({ sockfd_ := fd, connected_ := false }, net)
  else if conn_rc ≠ 0 then
    ({ sockfd_ := -1, connected_ := false }, net.close fd)
  else
    ({ sockfd_ := fd, connected_ := true }, net)

/-- `SocketDestination::IsConnected`. -/
def IsConnected (s : SocketDestination) : Bool := s.connected_

/-- The loop `while (total_sent < to_send) { ... }` of
`SocketDestination::WriteLogLine`, run for at most `fuel` iterations. -/
def sendLoop (out : Str) :
    Nat → Int → SocketDestination → Net → Call (SocketDestination × Net)
  | 0, total_sent, s, net =>
    if total_sent < (out.length : Int) then .running else .returned (s, net)
  | fuel + 1, total_sent, s, net =>
    if total_sent < (out.length : Int) then
      match net.send (out.drop total_sent.toNat) with
      | none => .killed (s, net)
      | some (sent, net1) =>
        if sent < 0 then
          .returned ({ sockfd_ := -1, connected_ := false }, net1.close s.sockfd_)
        else
          sendLoop out fuel (total_sent + sent) s net1
    else .returned (s, net)

/-- The string `out` of `SocketDestination::WriteLogLine`: `line`, with
`'\n'` pushed back when `line` is empty or does not end in `'\n'`. -/
def outOf (line : Str) : Str :=
  if line.isEmpty || line.getLast? != some '\n' then line ++ ['\n'] else line

/-- `SocketDestination::WriteLogLine`, its loop run for at most `fuel`
iterations. -/
def WriteLogLine (fuel : Nat) (line : Str) (s : SocketDestination) (net : Net) :
    Call (SocketDestination × Net) :=
  if !s.connected_ || s.sockfd_ < 0 then .returned (s, net)
  else sendLoop (outOf line) fuel 0 s net

/-- An operation on a `SocketDestination`. -/
inductive Op where
  | write (line : Str)
  | isConnected

/-- Whether the operation is a call of `IsConnected`. -/
def Op.asksConnected : Op → Bool
  | .write _ => false
  | .isConnected => true

/-- A sequence of operations on one `SocketDestination`, every `WriteLogLine`
with `fuel` iterations at most: the object and the socket afterwards, and the
answers of the `IsConnected` calls. The sequence stops at a call that does
not return. -/
def runOps (fuel : Nat) :
    List Op → SocketDestination → Net → Call (SocketDestination × Net × List Bool)
  | [], s, net => .returned (s, net, [])
  | .write line :: ops, s, net =>
    match WriteLogLine fuel line s net with
    | .running => .running
    | .killed (s', net') => .killed (s', net', [])
    | .returned (s', net') => runOps fuel ops s' net'
  | .isConnected :: ops, s, net =>
    match runOps fuel ops s net with
    | .running => .running
    | .killed (s', net', answers) => .killed (s', net', s.IsConnected :: answers)
    | .returned (s', net', answers) => .returned (s', net', s.IsConnected :: answers)

end SocketDestination

end LoggerLib

/-! ## The dispatch queue and its worker (`app/main.cpp`) -/

namespace App

open LoggerLib

/-- The `struct LogTask`. -/
structure LogTask where
  message : Str
  level : LogLevel
deriving DecidableEq

/-- The two threads of the program. -/
inductive Thread where
  | main
  | worker
deriving DecidableEq

/-- Where the thread running `logger_thread_func` is. -/
inductive WorkerPc where
  /-- At the start of an iteration of `while (true)`, about to construct
  `lock` (which locks `queue_mutex`). -/
  | top
  /-- In `queue_cv.wait(lock, pred)`, holding the mutex, about to evaluate
  the predicate. -/
  | waiting
  /-- In `queue_cv.wait(lock, pred)`, the mutex released, until woken (by a
  notification or spuriously). -/
  | blocked
  /-- Holding the mutex, at the test of `while (!log_queue.empty())`. -/
  | inner
  /-- After `lock.unlock()`, about to call `logger->Log(task.message, task.level)`. -/
  | logging (task : LogTask)
  /-- After the call of `Log`, about to `lock.lock()`. -/
  | relock
  /-- Holding the mutex, at `if (done_flag) break;`. -/
  | checkDone
  /-- Returned from `logger_thread_func`. -/
  | finished
deriving DecidableEq

/-- Where `main` is, from the input loop on. -/
inductive MainPc where
  /-- In the input loop, at `std::getline`. -/
  | reading
  /-- About to construct the `lock_guard` of the enqueue block. -/
  | enqLock (task : LogTask)
  /-- Holding the mutex, about to `log_queue.push(task)` and leave the block. -/
  | enqPush (task : LogTask)
  /-- At the `queue_cv.notify_one()` after the enqueue block. -/
  | enqNotify
  /-- After the loop, about to construct the `lock_guard` of the finish block. -/
  | sigLock
  /-- Holding the mutex, about to set `done_flag = true` and leave the block. -/
  | sigSet
  /-- At the `queue_cv.notify_one()` after the finish block. -/
  | sigNotify
  /-- At `worker.join()`. -/
  | joining
  /-- After `worker.join()`. -/
  | exited
deriving DecidableEq

/-- The globals `log_queue`, `done_flag`, `queue_mutex` (its holder), the
position of each thread, and two histories: the tasks pushed so far, in the
order of the pushes, and the tasks `logger->Log` was called on so far, in the
order of the calls. -/
structure State where
  log_queue : List LogTask
  done_flag : Bool
  queue_mutex : Option Thread
  main : MainPc
  worker : WorkerPc
  enqueued : List LogTask
  logged : List LogTask
deriving DecidableEq

/-- The state when `main` has started the worker and enters its input loop. -/
def State.init : State :=
  { log_queue := [], done_flag := false, queue_mutex := none,
    main := .reading, worker := .top, enqueued := [], logged := [] }

/-- One step of `main`. At `std::getline` the step takes what the input gives:
`none` for end of input or the line `exit`, `some task` for a line, already
turned into its task. `none` as result: the thread cannot move (it waits for
the mutex or for the worker, or it has ended). -/
def main_step (input : Option LogTask) (s : State) : Option State :=
  match s.main with
  | .reading =>
    match input with
    | none => some { s with main := .sigLock }
    | some task => some { s with main := .enqLock task }
  | .enqLock task =>
    if s.queue_mutex = none then
      some { s with queue_mutex := some .main, main := .enqPush task }
    else none
  | .enqPush task =>
    some { s with log_queue := s.log_queue ++ [task], enqueued := s.enqueued ++ [task],
                  queue_mutex := none, main := .enqNotify }
  | .enqNotify => some { s with main := .reading }
  | .sigLock =>
    if s.queue_mutex = none then
      some { s with queue_mutex := some .main, main := .sigSet }
    else none
  | .sigSet => some { s with done_flag := true, queue_mutex := none, main := .sigNotify }
  | .sigNotify => some { s with main := .joining }
  | .joining => if s.worker = .finished then some { s with main := .exited } else none
  | .exited => none

/-- One step of `logger_thread_func`; `none` when the thread cannot move (it
waits for the mutex, or it has returned). A thread blocked in `wait` may wake
at any time; to go on it has to get the mutex back. -/
def logger_thread_func_step (s : State) : Option State :=
  match s.worker with
  | .top =>
    if s.queue_mutex = none then
      some { s with queue_mutex := some .worker, worker := .waiting }
    else none
  | .waiting =>
    if !s.log_queue.isEmpty || s.done_flag then some { s with worker := .inner }
    else some { s with queue_mutex := none, worker := .blocked }
  | .blocked =>
    if s.queue_mutex = none then
      some { s with queue_mutex := some .worker, worker := .waiting }
    else none
  | .inner =>
    match s.log_queue with
    | task :: rest =>
      some { s with log_queue := rest, queue_mutex := none, worker := .logging task }
    | [] => some { s with worker := .checkDone }
  | .logging task => some { s with logged := s.logged ++ [task], worker := .relock }
  | .relock =>
    if s.queue_mutex = none then
      some { s with queue_mutex := some .worker, worker := .inner }
    else none
  | .checkDone =>
    if s.done_flag then some { s with queue_mutex := none, worker := .finished }
    else some { s with queue_mutex := none, worker := .top }
  | .finished => none

/-- What the scheduler picks next: a step of `main` (with what the input
gives, used at `std::getline` only) or a step of the worker. -/
inductive Action where
  | main (input : Option LogTask)
  | worker
deriving DecidableEq

/-- One step of the program. -/
def step (a : Action) (s : State) : Option State :=
  match a with
  | .main input => main_step input s
  | .worker => logger_thread_func_step s

/-- A schedule run from state `s`; `none` when it asks a thread to move that
cannot. -/
def run : List Action → State → Option State
  | [], s => some s
  | a :: as, s =>
    match step a s with
    | none => none
    | some s' => run as s'

/-- The states some schedule reaches from the initial state. -/
def Reachable (s : State) : Prop := ∃ as : List Action, run as State.init = some s

/-- The task the worker has popped and not yet passed to `Log`. -/
def inFlight : WorkerPc → List LogTask
  | .logging task => [task]
  | _ => []

/-- The positions at which the worker holds `queue_mutex`. -/
def WorkerPc.holdsMutex : WorkerPc → Bool
  | .waiting => true
  | .inner => true
  | .checkDone => true
  | _ => false

/-- The positions at which `main` holds `queue_mutex`. -/
def MainPc.holdsMutex : MainPc → Bool
  | .enqPush _ => true
  | .sigSet => true
  | _ => false

/-- The positions of `main` after `done_flag = true`. -/
def MainPc.afterStop : MainPc → Bool
  | .sigNotify => true
  | .joining => true
  | .exited => true
  | _ => false

/-- What holds in every state the program reaches: the pushed tasks are the
logged ones, then the one in flight, then the queue; the mutex is held by the
thread whose position says so and by no other; `done_flag` is set exactly when
`main` is past the finish block; at `if (done_flag)` the queue is empty; and
the worker has returned only with `done_flag` set and the queue empty. -/
structure Inv (s : State) : Prop where
  fifo : s.enqueued = s.logged ++ inFlight s.worker ++ s.log_queue
  worker_mutex : s.worker.holdsMutex = true ↔ s.queue_mutex = some .worker
  main_mutex : s.main.holdsMutex = true ↔ s.queue_mutex = some .main
  done_iff : s.done_flag = true ↔ s.main.afterStop = true
  check_empty : s.worker = .checkDone → s.log_queue = []
  finished_done : s.worker = .finished → s.done_flag = true ∧ s.log_queue = []

/-- Three tasks for concrete runs. -/
def T1 : LogTask := { message := "one".toList, level := LogLevel.Error }

/-- The second task. -/
def T2 : LogTask := { message := "two".toList, level := LogLevel.Info }

/-- The third task. -/
def T3 : LogTask := { message := "three".toList, level := LogLevel.Warning }

/-- A schedule in which `main` enqueues `T1`, `T2`, `T3` and signals the end
while the worker waits, wakes, logs and finally returns. -/
def demoSchedule : List Action :=
  [.worker, .worker,
   .main (some T1), .main none, .main none, .main none,
   .main (some T2), .main none, .main none, .main none,
   .worker, .worker, .worker,
   .main (some T3), .main none, .main none, .main none,
   .worker, .worker, .worker, .worker, .worker, .worker, .worker, .worker, .worker, .worker,
   .main none, .main none, .main none, .main none,
   .worker, .worker, .worker, .worker,
   .main none]

/-- The state `demoSchedule` ends in. -/
def demoFinal : State :=
  { log_queue := [], done_flag := true, queue_mutex := none,
    main := .exited, worker := .finished,
    enqueued := [T1, T2, T3], logged := [T1, T2, T3] }

/-- The first 14 steps of `demoSchedule` end here: `T1` is popped and not yet
logged, `T2` is queued, `main` is about to lock for `T3`. -/
def demoMiddle : State :=
  { log_queue := [T2], done_flag := false, queue_mutex := none,
    main := .enqLock T3, worker := .logging T1,
    enqueued := [T1, T2], logged := [] }

end App

/-! ## Turning an input line into a task (`app/main.cpp`) -/

namespace App

open LoggerLib

/-- The function `tolower` of `<cctype>` in the "C" locale (the program never
sets another): the letters `A` to `Z` go to `a` to `z`, every other character
to itself. -/
def tolower (c : Char) : Char :=
  if 'A' ≤ c ∧ c ≤ 'Z' then Char.ofNat (c.toNat + 32) else c

/-- The member `std::string::find(ch)`: the position of the first `ch`, `none`
for `std::string::npos`. -/
def find (ch : Char) : Str → Option Nat
  | [] => none
  | c :: rest => if c = ch then some 0 else (find ch rest).map (· + 1)

/-- The member `std::string::substr(pos, count)`. -/
def substr (s : Str) (pos count : Nat) : Str := (s.drop pos).take count

/-- The member `std::string::substr(pos)`. -/
def substrFrom (s : Str) (pos : Nat) : Str := s.drop pos

/-- The function `parse_level`. -/
def parse_level (s : Str) : LogLevel :=
  if s = "error".toList then LogLevel.Error
  else if s = "warning".toList then LogLevel.Warning
  else LogLevel.Info

/-- The part of the input loop of `main` from `LogLevel lvl = default_level;`
to the end of the "parse optional prefix" block: the task `{msg, lvl}` that is
pushed for `line`. `pre` is the variable the source calls `prefix`. -/
def parse_line (default_level : LogLevel) (line : Str) : LogTask :=
  match find ':' line with
  | none => { message := line, level := default_level }
  | some pos =>
    let pre := (substr line 0 pos).map tolower
    if pre = "error".toList ∨ pre = "warning".toList ∨ pre = "info".toList then
      { message := substrFrom line (pos + 1), level := parse_level pre }
    else
      { message := line, level := default_level }

/-- The head of the input loop with `parse_line`: what `main` has to push for
what `std::getline` gives. `none` as input is a failed `getline`; the result
is `none` when the loop is left (failed `getline`, or the line `exit`). This
is the `input` of `main_step`. -/
def read_task (default_level : LogLevel) (input : Option Str) : Option LogTask :=
  match input with
  | none => none
  | some line =>
    if line = "exit".toList then none else some (parse_line default_level line)

/-- Equality of two strings up to the case of their letters: the strings are
equal once every letter is put in lower case. -/
def equalsIgnoringCase (a b : Str) : Prop := a.map tolower = b.map tolower

end App

/-! ## The mutexes taken by `Logger::Log` -/

namespace LoggerLib

/-- The mutexes one call of `Logger::Log` meets: the two of the logger, and
the one of the destination at position `i` of `destinations_` (`file_mutex_`
of a `FileDestination`, `sock_mutex_` of a `SocketDestination`). -/
inductive Mutex where
  | level_mutex_
  | destinations_mutex_
  | destination (i : Nat)
deriving DecidableEq

/-- A mutex operation of the calling thread. -/
inductive LockEvent where
  | acquire (m : Mutex)
  | release (m : Mutex)
deriving DecidableEq

/-- The mutexes the thread holds after the operation `e`, when it held `held`
before. -/
def holdAfter (held : List Mutex) (e : LockEvent) : List Mutex :=
  match e with
  | .acquire m => held ++ [m]
  | .release m => held.erase m

/-- The mutexes the thread holds after the operations `es`, starting with
none held. -/
def heldAfter (es : List LockEvent) : List Mutex := es.foldl holdAfter []

/-- The position of the destination whose `WriteLogLine` is entered by the
operation `e`: `e` takes that destination's own mutex. -/
def LockEvent.enters : LockEvent → Option Nat
  | .acquire (.destination i) => some i
  | _ => none

/-- The mutex operations of `dest->WriteLogLine(line)` for the destination at
position `i`. Both `FileDestination::WriteLogLine` and
`SocketDestination::WriteLogLine` start with a `std::lock_guard` on the
destination's own mutex, which is released when the function is left. -/
def WriteLogLine_locks (i : Nat) : List LockEvent :=
  [.acquire (.destination i), .release (.destination i)]

namespace Logger

variable {σ : Type}

/-- The mutex operations of the loop `for (auto& dest : destinations_)` of
`Logger::Log`, over the destinations from position `i` on: those of the call
`dest->WriteLogLine(line)` for every `dest` that is not null. -/
def logLoop_locks : Nat → List (Option σ) → List LockEvent
  | _, [] => []
  | i, none :: rest => logLoop_locks (i + 1) rest
  | i, some _ :: rest => WriteLogLine_locks i ++ logLoop_locks (i + 1) rest

/-- The mutex operations of one call `Logger::Log(message, level)`, in order.
The `lock_guard` on `level_mutex_` lives in the block of the level check and
is released at the end of that block, also by the `return` in it. The
`lock_guard` on `destinations_mutex_` is constructed before the loop, in the
scope of the function body, and is released when the function returns. -/
def Log_locks (level : LogLevel) (lg : Logger σ) : List LockEvent :=
  if level.val > lg.current_level_.val then
    [.acquire .level_mutex_, .release .level_mutex_]
  else
    [.acquire .level_mutex_, .release .level_mutex_] ++
      ([.acquire .destinations_mutex_] ++
        (logLoop_locks 0 lg.destinations_ ++ [.release .destinations_mutex_]))

end Logger

/-- A logger with threshold `Info` and one destination, a `FileDestination`
on an empty file. -/
def fileLogger : Logger FileDestination :=
  { current_level_ := LogLevel.Info,
    destinations_ := [some (FileDestination.new (some []))] }

end LoggerLib

/-! ## Inputs for concrete runs -/

namespace LoggerLib

/-- An implementation of `ILogDestination` for concrete runs: an object keeps
the lines it was given, and its `WriteLogLine` leaves by an exception when
`throws` is set. -/
structure Probe where
  throws : Bool
  received : List Str
deriving DecidableEq

/-- The `WriteLogLine` of `Probe`. -/
def Probe.asILogDestination : ILogDestination Probe :=
  { WriteLogLine := fun line d =>
      if d.throws then .threw { d with received := d.received ++ [line] }
      else .returned { d with received := d.received ++ [line] } }

/-- A socket on which every `::send` accepts two bytes at most, and whose
peer keeps the connection open. -/
def twoByteNet : Net :=
  { send_rc := fun _ n => min (n : Int) 2, sigpipe := fun _ => false,
    results := [], wire := [], closed := [] }

/-- A socket on which every `::send` accepts two bytes at most, and whose
peer closes the connection after the first `::send`. -/
def brokenPipeNet : Net :=
  { send_rc := fun _ n => min (n : Int) 2, sigpipe := fun k => decide (1 ≤ k),
    results := [], wire := [], closed := [] }

/-- The object and the socket after a constructor whose `::connect` failed
(`getaddrinfo` gave an address, `::socket` gave descriptor 5, `::connect`
returned -1). -/
def refusedSocket : SocketDestination × Net :=
  SocketDestination.new 0 false 5 (-1) twoByteNet

end LoggerLib

/-! # Properties -/

namespace LoggerLib

/-! ## Formatting -/

theorem FormatLogLine_append (ts m : Str) (l : LogLevel) :
    FormatLogLine ts m l = ts ++ " [".toList ++ LevelToString l ++ "] ".toList ++ m := by
  simp [FormatLogLine, ostringstream.str, ostringstream.put, ostringstream.empty]

/-- C3. For every timestamp string `ts` and message `m`, `FormatLogLine` gives
`ts ++ " [" ++ name ++ "] " ++ m`, with name `Error`, `Warning`, `Info` for the
three levels: the message comes last and unchanged, and the line is a
function of the timestamp, the level and the message only. -/
theorem FormatLogLine_levels (ts m : Str) :
    FormatLogLine ts m LogLevel.Error
        = ts ++ " [".toList ++ "Error".toList ++ "] ".toList ++ m ∧
    FormatLogLine ts m LogLevel.Warning
        = ts ++ " [".toList ++ "Warning".toList ++ "] ".toList ++ m ∧
    FormatLogLine ts m LogLevel.Info
        = ts ++ " [".toList ++ "Info".toList ++ "] ".toList ++ m := by
  refine ⟨?_, ?_, ?_⟩ <;> rw [FormatLogLine_append] <;> rfl

/-! ## The fan-out loop of `Logger::Log` -/

namespace Logger

variable {σ : Type}

theorem tryWriteLogLine_returned (I : ILogDestination σ) (line : Str) (d : σ) :
    tryWriteLogLine I line d = .returned (I.WriteLogLine line d).state := by
  unfold tryWriteLogLine
  cases I.WriteLogLine line d <;> rfl

theorem logBody_returned (I : ILogDestination σ) (line : Str) (i : Nat) (dest : Option σ) :
    logBody I line i dest
      = .returned (dest.map (fun d => (I.WriteLogLine line d).state),
          if dest.isSome then [(i, line)] else []) := by
  cases dest with
  | none => rfl
  | some d => simp [logBody, tryWriteLogLine_returned]

theorem logLoop_returned (I : ILogDestination σ) (line : Str) (ds : List (Option σ)) :
    ∀ i : Nat, logLoop I line i ds
      = .returned (ds.map (Option.map (fun d => (I.WriteLogLine line d).state)),
          ((ds.enumFrom i).filter (fun p => p.2.isSome)).map (fun p => (p.1, line))) := by
  induction ds with
  | nil => intro i; rfl
  | cons dest rest ih =>
    intro i
    simp only [logLoop, logBody_returned, ih (i + 1)]
    cases dest <;> simp [List.enumFrom_cons, List.filter_cons]

theorem Log_accepted (I : ILogDestination σ) (ts m : Str) (l : LogLevel) (lg : Logger σ)
    (h : l.val ≤ lg.current_level_.val) :
    lg.Log I ts m l = .returned
      { logger :=
          { lg with
            destinations_ :=
              lg.destinations_.map
                (Option.map (fun d => (I.WriteLogLine (FormatLogLine ts m l) d).state)) },
        line := some (FormatLogLine ts m l),
        calls :=
          (lg.destinations_.enum.filter (fun p => p.2.isSome)).map
            (fun p => (p.1, FormatLogLine ts m l)) } := by
  unfold Log
  rw [if_neg (by omega)]
  simp only [logLoop_returned, List.enum]

theorem Log_rejected (I : ILogDestination σ) (ts m : Str) (l : LogLevel) (lg : Logger σ)
    (h : lg.current_level_.val < l.val) :
    lg.Log I ts m l = .returned { logger := lg, line := none, calls := [] } := by
  unfold Log
  rw [if_pos (by omega)]

/-- C1. `Logger::Log(m, l)` on a logger with threshold `t` goes on to the
destinations exactly when `l ≤ t` as integers. When `l ≤ t`, every destination
in the sequence is called with the formatted line, which ends in `m`, and is
afterwards in the state that call leaves it in. When `t < l`, no call is
made, nothing is formatted and the logger (threshold and destination
sequence) is unchanged. In both cases the call returns. -/
theorem Log_filters_by_level (I : ILogDestination σ) (ts m : Str) (l : LogLevel)
    (lg : Logger σ) :
    ∃ r : LogResult σ, lg.Log I ts m l = .returned r ∧
      (r.line.isSome = true ↔ l.val ≤ lg.current_level_.val) ∧
      ((∃ d, some d ∈ lg.destinations_) →
        (r.calls ≠ [] ↔ l.val ≤ lg.current_level_.val)) ∧
      (l.val ≤ lg.current_level_.val →
        r.line = some (FormatLogLine ts m l) ∧
        (∃ pre, FormatLogLine ts m l = pre ++ m) ∧
        ∀ (i : Nat) (d : σ), lg.destinations_[i]? = some (some d) →
          (i, FormatLogLine ts m l) ∈ r.calls ∧
          r.logger.destinations_[i]?
            = some (some (I.WriteLogLine (FormatLogLine ts m l) d).state)) ∧
      (lg.current_level_.val < l.val →
        r.calls = [] ∧ r.line = none ∧ r.logger = lg) := by
  by_cases h : l.val ≤ lg.current_level_.val
  · refine ⟨_, Log_accepted I ts m l lg h, ?_, ?_, ?_, ?_⟩
    · simp [h]
    · rintro ⟨d, hd⟩
      simp only [h, iff_true, ne_eq]
      obtain ⟨i, hi⟩ := List.getElem?_of_mem hd
      intro hnil
      have hmem : (i, FormatLogLine ts m l) ∈
          (lg.destinations_.enum.filter (fun p => p.2.isSome)).map
            (fun p => (p.1, FormatLogLine ts m l)) :=
        List.mem_map.mpr ⟨(i, some d),
          List.mem_filter.mpr ⟨List.mk_mem_enum_iff_getElem?.mpr hi, rfl⟩, rfl⟩
      rw [hnil] at hmem
      exact absurd hmem (List.not_mem_nil _)
    · intro _
      refine ⟨rfl, ⟨ts ++ " [".toList ++ LevelToString l ++ "] ".toList,
        FormatLogLine_append ts m l⟩, ?_⟩
      intro i d hi
      refine ⟨List.mem_map.mpr ⟨(i, some d),
          List.mem_filter.mpr ⟨List.mk_mem_enum_iff_getElem?.mpr hi, rfl⟩, rfl⟩, ?_⟩
      simp [hi]
    · intro h'
      omega
  · have h' : lg.current_level_.val < l.val := by omega
    refine ⟨_, Log_rejected I ts m l lg h', ?_, ?_, ?_, ?_⟩
    · simp [h]
    · intro _
      simp [h]
    · intro h''
      exact absurd h'' h
    · intro _
      exact ⟨rfl, rfl, rfl⟩

/-- C10. `SetLogLevel(s)` replaces the threshold and nothing else: right after
it `GetLogLevel()` returns `s`, the destination sequence is the one before,
and a following `Log(m, l)` passes the level check exactly when `l ≤ s`,
whatever the threshold was; `Log` itself keeps the threshold, so this stays
so for the calls after it. `GetLogLevel` leaves the logger as it is. -/
theorem SetLogLevel_replaces_threshold (lg : Logger σ) (s : LogLevel) :
    (lg.SetLogLevel s).GetLogLevel.1 = s ∧
    (lg.SetLogLevel s).destinations_ = lg.destinations_ ∧
    (∀ (I : ILogDestination σ) (ts m : Str) (l : LogLevel),
      (((lg.SetLogLevel s).Log I ts m l).state.line.isSome = true ↔ l.val ≤ s.val) ∧
      ((lg.SetLogLevel s).Log I ts m l).state.logger.current_level_ = s) ∧
    (∀ (I : ILogDestination σ) (ts m : Str) (l : LogLevel),
      (lg.Log I ts m l).state.logger.current_level_ = lg.current_level_) ∧
    lg.GetLogLevel.2 = lg ∧
    (lg.SetLogLevel s).GetLogLevel.2 = lg.SetLogLevel s := by
  have key : ∀ (lg' : Logger σ) (I : ILogDestination σ) (ts m : Str) (l : LogLevel),
      ((lg'.Log I ts m l).state.line.isSome = true ↔ l.val ≤ lg'.current_level_.val) ∧
      (lg'.Log I ts m l).state.logger.current_level_ = lg'.current_level_ := by
    intro lg' I ts m l
    by_cases h : l.val ≤ lg'.current_level_.val
    · rw [Log_accepted I ts m l lg' h]
      simp [Outcome.state, h]
    · rw [Log_rejected I ts m l lg' (by omega)]
      simp [Outcome.state, h]
  refine ⟨rfl, rfl, ?_, ?_, rfl, rfl⟩
  · intro I ts m l
    exact key (lg.SetLogLevel s) I ts m l
  · intro I ts m l
    exact (key lg I ts m l).2

end Logger

namespace FileDestination

theorem WriteLogLine_open (L : Str) (d : FileDestination)
    (ho : d.ofs_.is_open = true) (hp : d.ofs_.pending = []) :
    d.WriteLogLine L
      = { ofs_ := { is_open := true, pending := [], file := d.ofs_.file ++ L ++ ['\n'] } } := by
  simp [WriteLogLine, ofstream.put, ofstream.endl, ofstream.flush, ho, hp]

theorem WriteLogLine_not_open (L : Str) (d : FileDestination)
    (ho : d.ofs_.is_open = false) : d.WriteLogLine L = d := by
  simp [WriteLogLine, ho]

theorem writeAll_open (Ls : List Str) :
    ∀ d : FileDestination, d.ofs_.is_open = true → d.ofs_.pending = [] →
      (d.writeAll Ls).ofs_.is_open = true ∧ (d.writeAll Ls).ofs_.pending = [] := by
  induction Ls with
  | nil => intro d ho hp; exact ⟨ho, hp⟩
  | cons L Ls ih =>
    intro d ho hp
    have h := WriteLogLine_open L d ho hp
    simp only [writeAll, List.foldl_cons] at ih ⊢
    exact ih (d.WriteLogLine L) (by rw [h]) (by rw [h])

theorem writeAll_not_open (Ls : List Str) :
    ∀ d : FileDestination, d.ofs_.is_open = false → d.writeAll Ls = d := by
  induction Ls with
  | nil => intro d _; rfl
  | cons L Ls ih =>
    intro d ho
    simp only [writeAll, List.foldl_cons] at ih ⊢
    rw [WriteLogLine_not_open L d ho]
    exact ih d ho

/-- C4. On a `FileDestination` whose file opened (with content `C₀`), after
any number of earlier writes, `WriteLogLine(L)` leaves in the file what was
there before, then `L`, then a newline, with nothing left in the stream
buffer. In particular the first write to a file with content `C₀` gives
`C₀ ++ L ++ "\n"`, and on a new or empty file reading back gives `L ++ "\n"`. -/
theorem WriteLogLine_appends_line (C₀ : Str) (Ls : List Str) (L : Str) :
    (((new (some C₀)).writeAll Ls).WriteLogLine L).readBack
        = ((new (some C₀)).writeAll Ls).readBack ++ L ++ ['\n'] ∧
    (((new (some C₀)).writeAll Ls).WriteLogLine L).ofs_.pending = [] ∧
    ((new (some C₀)).WriteLogLine L).readBack = C₀ ++ L ++ ['\n'] ∧
    ((new (some [])).WriteLogLine L).readBack = L ++ ['\n'] := by
  have h0 : ∀ C : Str, (new (some C)).ofs_.is_open = true ∧ (new (some C)).ofs_.pending = [] :=
    fun C => ⟨rfl, rfl⟩
  have hd := writeAll_open Ls (new (some C₀)) (h0 C₀).1 (h0 C₀).2
  refine ⟨?_, ?_, ?_, ?_⟩
  · rw [WriteLogLine_open L _ hd.1 hd.2]
    rfl
  · rw [WriteLogLine_open L _ hd.1 hd.2]
  · rw [WriteLogLine_open L _ (h0 C₀).1 (h0 C₀).2]
    rfl
  · rw [WriteLogLine_open L _ (h0 []).1 (h0 []).2]
    rfl

/-- C9. A `FileDestination` whose file could not be opened is a usable object
on which every `WriteLogLine` returns and changes nothing: after any number of
calls the object is the one the constructor made, its stream is not open and
nothing was written. -/
theorem WriteLogLine_failed_open_noop (Ls : List Str) (L : Str) :
    (new none).ofs_.is_open = false ∧
    (new none).writeAll Ls = new none ∧
    ((new none).writeAll Ls).WriteLogLine L = new none ∧
    asILogDestination.WriteLogLine L ((new none).writeAll Ls) = .returned (new none) ∧
    (((new none).writeAll Ls).WriteLogLine L).readBack = [] ∧
    (∀ d : FileDestination, d.ofs_.is_open = false → d.WriteLogLine L = d) := by
  have h1 : (new none).writeAll Ls = new none := writeAll_not_open Ls (new none) rfl
  have h2 : (new none).WriteLogLine L = new none := WriteLogLine_not_open L (new none) rfl
  refine ⟨rfl, h1, ?_, ?_, ?_, fun d ho => WriteLogLine_not_open L d ho⟩
  · rw [h1, h2]
  · simp only [asILogDestination, h1, h2]
  · rw [h1, h2]
    rfl

end FileDestination

/-! ## `SocketDestination` -/

namespace SocketDestination

theorem WriteLogLine_disconnected (fuel : Nat) (line : Str) (s : SocketDestination) (net : Net)
    (h : s.connected_ = false) : WriteLogLine fuel line s net = .returned (s, net) := by
  simp [WriteLogLine, h]

theorem runOps_disconnected (fuel : Nat) (ops : List Op) (s : SocketDestination) (net : Net)
    (h : s.connected_ = false) :
    runOps fuel ops s net
      = .returned (s, net, (ops.filter Op.asksConnected).map (fun _ => false)) := by
  induction ops with
  | nil => rfl
  | cons op ops ih =>
    cases op with
    | write line =>
      simp [runOps, WriteLogLine_disconnected fuel line s net h, ih, Op.asksConnected]
    | isConnected =>
      simp [runOps, ih, Op.asksConnected, IsConnected, h]

theorem send_of_sigpipe (buf : Str) (net : Net) (h : net.sigpipe net.results.length = true) :
    net.send buf = none := by
  simp [Net.send, h]

theorem send_of_not_sigpipe (buf : Str) (net : Net)
    (h : net.sigpipe net.results.length = false) :
    net.send buf
      = some (net.send_rc net.results.length buf.length,
          { net with
            results := net.results ++ [net.send_rc net.results.length buf.length],
            wire := if net.send_rc net.results.length buf.length < 0 then net.wire
              else net.wire ++ buf.take (net.send_rc net.results.length buf.length).toNat }) := by
  simp [Net.send, h]

theorem sendLoop_results (out : Str) (s : SocketDestination) :
    ∀ (fuel : Nat) (total : Int) (net : Net) (s' : SocketDestination) (net' : Net),
      sendLoop out fuel total s net = .returned (s', net') →
      ∃ rs : List Int, net'.results = net.results ++ rs ∧
        ((s' = s ∧ ∀ r ∈ rs, 0 ≤ r) ∨ (s'.connected_ = false ∧ s'.sockfd_ = -1)) := by
  intro fuel
  induction fuel with
  | zero =>
    intro total net s' net' h
    simp only [sendLoop] at h
    split at h
    · exact absurd h (by simp)
    · simp only [Call.returned.injEq, Prod.mk.injEq] at h
      exact ⟨[], by simp [← h.2], Or.inl ⟨h.1.symm, by simp⟩⟩
  | succ fuel ih =>
    intro total net s' net' h
    simp only [sendLoop] at h
    split at h
    · by_cases hsig : net.sigpipe net.results.length = true
      · rw [send_of_sigpipe _ net hsig] at h
        exact absurd h (by simp)
      · rw [send_of_not_sigpipe _ net (by simpa using hsig)] at h
        simp only at h
        split at h
        · simp only [Call.returned.injEq, Prod.mk.injEq] at h
          refine ⟨[net.send_rc net.results.length (out.drop total.toNat).length], ?_, Or.inr ?_⟩
          · simp [← h.2, Net.close]
          · simp [← h.1]
        · rename_i hneg
          obtain ⟨rs, hrs, hcase⟩ := ih _ _ s' net' h
          refine ⟨net.send_rc net.results.length (out.drop total.toNat).length :: rs, ?_, ?_⟩
          · simp [hrs]
          · rcases hcase with ⟨hs, hall⟩ | hd
            · refine Or.inl ⟨hs, ?_⟩
              intro r hr
              rcases List.mem_cons.mp hr with rfl | hr
              · omega
              · exact hall r hr
            · exact Or.inr hd
    · simp only [Call.returned.injEq, Prod.mk.injEq] at h
      exact ⟨[], by simp [← h.2], Or.inl ⟨h.1.symm, by simp⟩⟩

theorem sendLoop_spec (out : Str) (s : SocketDestination) (f : Nat → Nat → Int)
    (g : Nat → Bool) (hos : ∀ k n : Nat, 0 < n → f k n ≠ 0 ∧ f k n ≤ n) :
    ∀ (fuel : Nat) (total : Int) (net : Net), net.send_rc = f → net.sigpipe = g →
      0 ≤ total → total ≤ out.length → (out.length : Int) - total ≤ fuel →
      ∃ (s' : SocketDestination) (net' : Net) (rs : List Int),
        net'.send_rc = f ∧ net'.sigpipe = g ∧
        (∀ r ∈ rs, 0 < r) ∧ 0 ≤ rs.sum ∧ total + rs.sum ≤ out.length ∧
        net'.wire = net.wire ++ (out.drop total.toNat).take rs.sum.toNat ∧
        ((sendLoop out fuel total s net = .returned (s', net') ∧
            s' = s ∧ net'.results = net.results ++ rs ∧ total + rs.sum = out.length ∧
            net'.closed = net.closed) ∨
         (sendLoop out fuel total s net = .returned (s', net') ∧
            s' = { sockfd_ := -1, connected_ := false } ∧
            (∃ e : Int, e < 0 ∧ (∃ k n : Nat, e = f k n) ∧
              net'.results = net.results ++ rs ++ [e]) ∧
            total + rs.sum < out.length ∧ net'.closed = net.closed ++ [s.sockfd_]) ∨
         (sendLoop out fuel total s net = .killed (s', net') ∧
            s' = s ∧ net'.results = net.results ++ rs ∧
            g (net.results.length + rs.length) = true ∧
            total + rs.sum < out.length ∧ net'.closed = net.closed)) := by
  intro fuel
  induction fuel with
  | zero =>
    intro total net hf hg h0 hle hfuel
    have : ¬ total < (out.length : Int) := by omega
    refine ⟨s, net, [], hf, hg, by simp, by simp, by simpa using hle, by simp, Or.inl ?_⟩
    refine ⟨by simp [sendLoop, this], rfl, by simp, ?_, rfl⟩
    simp
    omega
  | succ fuel ih =>
    intro total net hf hg h0 hle hfuel
    by_cases hlt : total < (out.length : Int)
    · have hlen : (out.drop total.toNat).length = out.length - total.toNat := List.length_drop _ _
      have hpos : 0 < (out.drop total.toNat).length := by omega
      by_cases hsig : g net.results.length = true
      · refine ⟨s, net, [], hf, hg, by simp, by simp, by simpa using hle, by simp,
          Or.inr (Or.inr ⟨?_, rfl, by simp, by simpa using hsig, by simpa using hlt, rfl⟩)⟩
        simp only [sendLoop, hlt, if_true, send_of_sigpipe _ net (by rw [hg]; exact hsig)]
      · have hsend := send_of_not_sigpipe (out.drop total.toNat) net
          (by rw [hg]; simpa using hsig)
        rw [hf] at hsend
        obtain ⟨hne, hub⟩ := hos net.results.length _ hpos
        by_cases hneg : f net.results.length (out.drop total.toNat).length < 0
        · refine ⟨{ sockfd_ := -1, connected_ := false },
            Net.close s.sockfd_
              { net with
                results := net.results ++ [f net.results.length (out.drop total.toNat).length],
                wire := net.wire },
            [], ?_, ?_, by simp, by simp, by simpa using hle, ?_,
            Or.inr (Or.inl ⟨?_, rfl, ⟨_, hneg, ⟨_, _, rfl⟩, ?_⟩, by simpa using hlt, ?_⟩)⟩
          · simp [Net.close, hf]
          · simp [Net.close, hg]
          · simp [Net.close]
          · simp only [sendLoop, hlt, if_true, hsend, hneg]
            rw [hf]
          · simp [Net.close]
          · simp [Net.close]
        · have hr0 : 0 < f net.results.length (out.drop total.toNat).length := by omega
          obtain ⟨s', net', rs, hf', hg', hall, hsum0, hsum, hwire, hcase⟩ :=
            ih (total + f net.results.length (out.drop total.toNat).length)
              { net with
                results := net.results ++ [f net.results.length (out.drop total.toNat).length],
                wire := net.wire ++ (out.drop total.toNat).take
                  (f net.results.length (out.drop total.toNat).length).toNat }
              hf hg (by omega) (by omega) (by omega)
          have hstep : sendLoop out (fuel + 1) total s net
              = sendLoop out fuel (total + f net.results.length (out.drop total.toNat).length) s
                  { net with
                    results :=
                      net.results ++ [f net.results.length (out.drop total.toNat).length],
                    wire := net.wire ++ (out.drop total.toNat).take
                      (f net.results.length (out.drop total.toNat).length).toNat } := by
            simp only [sendLoop, hlt, if_true, hsend, hneg, if_false]
            rw [hf]
          refine ⟨s', net', f net.results.length (out.drop total.toNat).length :: rs, hf', hg',
            ?_, ?_, ?_, ?_, ?_⟩
          · intro r hr
            rcases List.mem_cons.mp hr with rfl | hr
            · exact hr0
            · exact hall r hr
          · simp only [List.sum_cons]; omega
          · simp only [List.sum_cons]; omega
          · rw [hwire]
            simp only [List.sum_cons, List.append_assoc]
            rw [Int.toNat_add (le_of_lt hr0) hsum0, List.take_add, List.drop_drop,
              Int.toNat_add h0 (le_of_lt hr0)]
          · rw [hstep]
            rcases hcase with ⟨hrun, hs, hres, htot, hcl⟩ |
              ⟨hrun, hs, ⟨e, he, hk, hres⟩, htot, hcl⟩ | ⟨hrun, hs, hres, hsg, htot, hcl⟩
            · refine Or.inl ⟨hrun, hs, ?_, ?_, ?_⟩
              · simp [hres]
              · simp only [List.sum_cons]; omega
              · simp [hcl]
            · refine Or.inr (Or.inl ⟨hrun, hs, ⟨e, he, hk, ?_⟩, ?_, ?_⟩)
              · simp [hres]
              · simp only [List.sum_cons]; omega
              · simp [hcl]
            · refine Or.inr (Or.inr ⟨hrun, hs, ?_, ?_, ?_, ?_⟩)
              · simp [hres]
              · rw [← hsg]
                congr 1
                simp
                omega
              · simp only [List.sum_cons]; omega
              · simp [hcl]
    · refine ⟨s, net, [], hf, hg, by simp, by simp, by simpa using hle, by simp, Or.inl ?_⟩
      refine ⟨by simp [sendLoop, hlt], rfl, by simp, ?_, rfl⟩
      simp
      omega

theorem new_connected_sockfd (rc : Int) (res_null : Bool) (fd conn_rc : Int) (net : Net)
    (h : (new rc res_null fd conn_rc net).1.connected_ = true) :
    0 ≤ (new rc res_null fd conn_rc net).1.sockfd_ ∧
    (new rc res_null fd conn_rc net).1.sockfd_ = fd ∧
    (new rc res_null fd conn_rc net).2 = net := by
  unfold new at h ⊢
  split
  · rename_i h1; rw [if_pos h1] at h; exact absurd h (by simp)
  · rename_i h1
    rw [if_neg h1] at h
    split
    · rename_i h2; rw [if_pos h2] at h; exact absurd h (by simp)
    · rename_i h2
      rw [if_neg h2] at h
      split
      · rename_i h3; rw [if_pos h3] at h; exact absurd h (by simp)
      · exact ⟨by simpa using h2, rfl, rfl⟩

theorem outOf_eq (line : Str) :
    ((∃ pre, line = pre ++ ['\n']) → outOf line = line) ∧
    ((¬ ∃ pre, line = pre ++ ['\n']) → outOf line = line ++ ['\n']) := by
  have hiff : line.getLast? = some '\n' ↔ ∃ pre, line = pre ++ ['\n'] :=
    List.getLast?_eq_some_iff
  constructor
  · intro h
    have hl := hiff.mpr h
    obtain ⟨pre, hpre⟩ := h
    have hne : line ≠ [] := by rw [hpre]; simp
    simp [outOf, hl, hne]
  · intro h
    have hl : line.getLast? ≠ some '\n' := fun hl => h (hiff.mp hl)
    simp [outOf, hl]

/-- C5. Once `connected_` is false, every sequence of `WriteLogLine` and
`IsConnected` calls leaves the object and the socket as they are (so nothing
is sent and `connected_` stays false) and every `IsConnected` answers false.
`connected_` is false after a constructor in which address resolution, socket
creation or the connect failed, and after a `WriteLogLine` in which a `::send`
returned an error. -/
theorem disconnected_is_permanent (s : SocketDestination) (net : Net) (fuel : Nat)
    (ops : List Op) (h : s.connected_ = false) :
    runOps fuel ops s net
      = .returned (s, net, (ops.filter Op.asksConnected).map (fun _ => false)) ∧
    (∀ line : Str, WriteLogLine fuel line s net = .returned (s, net)) ∧
    s.IsConnected = false ∧
    (∀ (rc : Int) (res_null : Bool) (fd conn_rc : Int) (net₀ : Net),
      rc ≠ 0 ∨ res_null = true ∨ fd < 0 ∨ conn_rc ≠ 0 →
      (new rc res_null fd conn_rc net₀).1.connected_ = false) ∧
    (∀ (line : Str) (s₀ s' : SocketDestination) (net₀ net' : Net),
      WriteLogLine fuel line s₀ net₀ = .returned (s', net') →
      (∃ r ∈ net'.results.drop net₀.results.length, r < 0) →
      s'.connected_ = false) := by
  refine ⟨runOps_disconnected fuel ops s net h,
    fun line => WriteLogLine_disconnected fuel line s net h, h, ?_, ?_⟩
  · intro rc res_null fd conn_rc net₀ hfail
    unfold new
    split
    · rfl
    · split
      · rfl
      · split
        · rfl
        · rename_i h1 h2 h3
          simp only [not_or, ne_eq, not_not, Bool.not_eq_true] at h1
          rcases hfail with hf | hf | hf | hf
          · exact absurd h1.1 hf
          · rw [h1.2] at hf; exact absurd hf (by decide)
          · exact absurd hf h2
          · exact absurd (not_not.mp h3) hf
  · intro line s₀ s' net₀ net' hrun ⟨r, hr, hneg⟩
    unfold WriteLogLine at hrun
    split at hrun
    · simp only [Call.returned.injEq, Prod.mk.injEq] at hrun
      rw [← hrun.2] at hr
      simp at hr
    · obtain ⟨rs, hrs, hcase⟩ := sendLoop_results _ _ _ _ _ _ _ hrun
      rcases hcase with ⟨_, hall⟩ | ⟨hd, _⟩
      · rw [hrs] at hr
        simp only [List.drop_left] at hr
        have := hall r hr
        omega
      · exact hd

/-- What `WriteLogLine(L)` does on a connected `SocketDestination` (its
descriptor is then not negative: the constructor sets `connected_` only after
`::socket` gave one), with a socket on which a `::send` asked for `n > 0`
bytes that returns gives an error or a count from 1 to `n`, and with the loop
given as many iterations as `out` has bytes. `out` is `L` when `L` ends in a
newline and `L` plus a newline otherwise (a newline alone for the empty `L`).
The bytes put on the wire are the first bytes of `out`, as many as the
successful sends `rs` returned in total. Then one of three: no send failed,
all of `out` went out, each byte once and in order, and the call returns with
the object unchanged (still connected); or the last send of the call is the
first that returned an error, and the call returns with the descriptor closed,
`sockfd_ = -1` and `connected_ = false`; or the peer had closed the connection
at a send, and the process ends inside that `::send`, the descriptor not
closed and `connected_` still true. When the peer keeps the connection open
and no send returns an error, it is the first case. -/
theorem WriteLogLine_sends_line (line : Str) (s : SocketDestination) (net : Net) (fuel : Nat)
    (hc : s.connected_ = true) (hfd : 0 ≤ s.sockfd_)
    (hos : ∀ k n : Nat, 0 < n → net.send_rc k n ≠ 0 ∧ net.send_rc k n ≤ n)
    (hfuel : (outOf line).length ≤ fuel) :
    ((∃ pre, line = pre ++ ['\n']) → outOf line = line) ∧
    ((¬ ∃ pre, line = pre ++ ['\n']) → outOf line = line ++ ['\n']) ∧
    outOf [] = ['\n'] ∧
    (∀ (rc : Int) (res_null : Bool) (fd conn_rc : Int) (net₀ : Net),
      (new rc res_null fd conn_rc net₀).1.connected_ = true →
      0 ≤ (new rc res_null fd conn_rc net₀).1.sockfd_) ∧
    ∃ (s' : SocketDestination) (net' : Net) (rs : List Int),
      (∀ r ∈ rs, 0 < r) ∧
      net'.wire = net.wire ++ (outOf line).take rs.sum.toNat ∧
      ((WriteLogLine fuel line s net = .returned (s', net') ∧
          s' = s ∧ net'.results = net.results ++ rs ∧
          net'.wire = net.wire ++ outOf line ∧ net'.closed = net.closed) ∨
       (WriteLogLine fuel line s net = .returned (s', net') ∧
          s' = { sockfd_ := -1, connected_ := false } ∧
          (∃ e : Int, e < 0 ∧ net'.results = net.results ++ rs ++ [e]) ∧
          rs.sum < (outOf line).length ∧ net'.closed = net.closed ++ [s.sockfd_]) ∨
       (WriteLogLine fuel line s net = .killed (s', net') ∧
          s' = s ∧ net'.results = net.results ++ rs ∧
          net.sigpipe (net.results.length + rs.length) = true ∧
          rs.sum < (outOf line).length ∧ net'.closed = net.closed)) ∧
      ((∀ k : Nat, net.sigpipe k = false) → (∀ k n : Nat, 0 ≤ net.send_rc k n) →
        WriteLogLine fuel line s net = .returned (s, net') ∧
        net'.wire = net.wire ++ outOf line ∧ net'.closed = net.closed) := by
  refine ⟨(outOf_eq line).1, (outOf_eq line).2, rfl,
    fun rc res_null fd conn_rc net₀ h => (new_connected_sockfd rc res_null fd conn_rc net₀ h).1, ?_⟩
  obtain ⟨s', net', rs, _, _, hall, hsum0, hsum, hwire, hcase⟩ :=
    sendLoop_spec (outOf line) s net.send_rc net.sigpipe hos fuel 0 net rfl rfl (le_refl 0)
      (by omega) (by omega)
  have hfull : rs.sum = (outOf line).length →
      net'.wire = net.wire ++ outOf line := by
    intro hs
    rw [hwire, hs]
    simp
  have hguard : (!s.connected_ || decide (s.sockfd_ < 0)) = false := by
    simp [hc, hfd]
  have hW : WriteLogLine fuel line s net = sendLoop (outOf line) fuel 0 s net := by
    simp only [WriteLogLine, hguard]
    rfl
  rw [hW]
  refine ⟨s', net', rs, hall, by simpa using hwire, ?_, ?_⟩
  · rcases hcase with ⟨hrun, hs, hres, htot, hcl⟩ |
      ⟨hrun, hs, ⟨e, he, _, hres⟩, htot, hcl⟩ | ⟨hrun, hs, hres, hsg, htot, hcl⟩
    · exact Or.inl ⟨hrun, hs, hres, hfull (by omega), hcl⟩
    · exact Or.inr (Or.inl ⟨hrun, hs, ⟨e, he, hres⟩, by omega, hcl⟩)
    · exact Or.inr (Or.inr ⟨hrun, hs, hres, hsg, by omega, hcl⟩)
  · intro hnosig hnn
    rcases hcase with ⟨hrun, hs, hres, htot, hcl⟩ |
      ⟨hrun, hs, ⟨e, he, ⟨k, n, hk⟩, hres⟩, htot, hcl⟩ | ⟨hrun, hs, hres, hsg, htot, hcl⟩
    · exact ⟨by rw [hrun, hs], hfull (by omega), hcl⟩
    · have := hnn k n
      omega
    · rw [hnosig] at hsg
      exact absurd hsg (by decide)

end SocketDestination

/-- C5, on the object a constructor with a refused connect leaves: two writes
and two `IsConnected` calls change nothing and both answers are false. -/
theorem disconnected_is_permanent_witness :
    refusedSocket.1.connected_ = false ∧
    SocketDestination.runOps 4
        [.write "a".toList, .isConnected, .write "b".toList, .isConnected]
        refusedSocket.1 refusedSocket.2
      = .returned (refusedSocket.1, refusedSocket.2, [false, false]) :=
  ⟨rfl,
   (SocketDestination.disconnected_is_permanent refusedSocket.1 refusedSocket.2 4
     [.write "a".toList, .isConnected, .write "b".toList, .isConnected] rfl).1⟩

/-- On a socket that takes two bytes per send and whose peer keeps the
connection open: the three bytes of `abc` and the newline go out in two sends
and the call returns with the object as it was. -/
theorem WriteLogLine_sends_line_witness :
    ∃ net' : Net,
      SocketDestination.WriteLogLine 4 "abc".toList { sockfd_ := 3, connected_ := true }
          twoByteNet
        = .returned ({ sockfd_ := 3, connected_ := true }, net') ∧
      net'.wire = "abc\n".toList ∧ net'.closed = [] := by
  obtain ⟨s', net', rs, _, _, _, hok⟩ :=
    (SocketDestination.WriteLogLine_sends_line "abc".toList
      { sockfd_ := 3, connected_ := true } twoByteNet 4 rfl (by decide)
      (by intro k n hn; simp only [twoByteNet]; omega) (by decide)).2.2.2.2
  obtain ⟨hrun, hw, hcl⟩ := hok (fun _ => rfl) (by intro k n; simp only [twoByteNet]; omega)
  exact ⟨net', hrun, by rw [hw]; rfl, by rw [hcl]; rfl⟩

/-- C6. The code does not do what the claim says at its error clause. A
connected `SocketDestination` on descriptor 3 is given `abc`; the first
`::send` takes two bytes; the peer has then closed the connection. The second
`::send`, called with the flags `0`, raises `SIGPIPE`, which the program
leaves at its default: the process ends inside the call. `ab` is on the wire,
the descriptor is not closed, `connected_` is still true, and with however
many iterations the call never returns. -/
theorem WriteLogLine_sigpipe_ends_process :
    ∃ net' : Net,
      SocketDestination.WriteLogLine 4 "abc".toList { sockfd_ := 3, connected_ := true }
          brokenPipeNet
        = .killed ({ sockfd_ := 3, connected_ := true }, net') ∧
      net'.wire = "ab".toList ∧ net'.results = [2] ∧ net'.closed = [] ∧
      ∀ (fuel : Nat) (s' : SocketDestination) (net'' : Net),
        SocketDestination.WriteLogLine fuel "abc".toList { sockfd_ := 3, connected_ := true }
            brokenPipeNet
          ≠ .returned (s', net'') := by
  refine ⟨{ brokenPipeNet with results := [2], wire := "ab".toList }, rfl, rfl, rfl, rfl, ?_⟩
  intro fuel s' net'' h
  rcases fuel with _ | _ | n
  · have h0 : SocketDestination.WriteLogLine 0 "abc".toList
        { sockfd_ := 3, connected_ := true } brokenPipeNet = .running := rfl
    rw [h0] at h
    exact absurd h (by simp)
  · have h1 : SocketDestination.WriteLogLine 1 "abc".toList
        { sockfd_ := 3, connected_ := true } brokenPipeNet = .running := rfl
    rw [h1] at h
    exact absurd h (by simp)
  · have h2 : SocketDestination.WriteLogLine (n + 2) "abc".toList
        { sockfd_ := 3, connected_ := true } brokenPipeNet
        = .killed ({ sockfd_ := 3, connected_ := true },
            { brokenPipeNet with results := [2], wire := "ab".toList }) := rfl
    rw [h2] at h
    exact absurd h (by simp)

end LoggerLib

/-! ## The dispatch queue -/

namespace App

theorem run_demoSchedule : run demoSchedule State.init = some demoFinal := by
  decide

theorem run_demoMiddle : run (demoSchedule.take 14) State.init = some demoMiddle := by
  decide

theorem inv_init : Inv State.init := by
  constructor <;> simp [State.init, inFlight, WorkerPc.holdsMutex, MainPc.holdsMutex,
    MainPc.afterStop]

theorem inv_main_step (input : Option LogTask) (s s' : State)
    (h : main_step input s = some s') (hi : Inv s) : Inv s' := by
  obtain ⟨q, d, m, mp, wp, e, l⟩ := s
  obtain ⟨h1, h2, h3, h4, h5, h6⟩ := hi
  cases mp <;> cases input <;> simp only [main_step] at h <;>
    (try split at h) <;>
    simp only [Option.some.injEq, reduceCtorEq] at h <;>
    subst h <;>
    cases wp <;>
    constructor <;>
    simp_all [inFlight, WorkerPc.holdsMutex, MainPc.holdsMutex, MainPc.afterStop]

theorem inv_worker_step (s s' : State)
    (h : logger_thread_func_step s = some s') (hi : Inv s) : Inv s' := by
  obtain ⟨q, d, m, mp, wp, e, l⟩ := s
  obtain ⟨h1, h2, h3, h4, h5, h6⟩ := hi
  cases wp <;> simp only [logger_thread_func_step] at h <;>
    (try split at h) <;>
    simp only [Option.some.injEq, reduceCtorEq] at h <;>
    subst h <;>
    cases mp <;>
    constructor <;>
    simp_all [inFlight, WorkerPc.holdsMutex, MainPc.holdsMutex, MainPc.afterStop]

theorem inv_step (a : Action) (s s' : State) (h : step a s = some s') (hi : Inv s) :
    Inv s' := by
  cases a with
  | main input => exact inv_main_step input s s' h hi
  | worker => exact inv_worker_step s s' h hi

theorem inv_run (as : List Action) :
    ∀ s s' : State, run as s = some s' → Inv s → Inv s' := by
  induction as with
  | nil =>
    intro s s' h hi
    simp only [run, Option.some.injEq] at h
    exact h ▸ hi
  | cons a as ih =>
    intro s s' h hi
    simp only [run] at h
    split at h
    · exact absurd h (by simp)
    · rename_i s₁ hs₁
      exact ih s₁ s' h (inv_step a s s₁ hs₁ hi)

theorem inv_of_reachable (s : State) (h : Reachable s) : Inv s := by
  obtain ⟨as, has⟩ := h
  exact inv_run as State.init s has inv_init

theorem enqueued_of_done (a : Action) (s s' : State) (hi : Inv s)
    (hd : s.done_flag = true) (h : step a s = some s') : s'.enqueued = s.enqueued := by
  obtain ⟨q, d, m, mp, wp, e, l⟩ := s
  have hstop := hi.done_iff.mp hd
  cases a with
  | main input =>
    cases mp <;> cases input <;> simp only [step, main_step] at h <;>
      (try split at h) <;>
      simp only [Option.some.injEq, reduceCtorEq] at h <;>
      first
        | (subst h; rfl)
        | exact absurd hstop (by simp [MainPc.afterStop])
  | worker =>
    cases wp <;> simp only [step, logger_thread_func_step] at h <;>
      (try split at h) <;>
      simp only [Option.some.injEq, reduceCtorEq] at h <;>
      subst h <;> rfl

/-- C7. In every state the program reaches, under every interleaving of the
steps of `main` and of the worker, the tasks `logger->Log` was called on are,
in the order of the calls, the first of the tasks pushed, in the order of the
pushes: the `i`-th call is on the `i`-th task pushed. The tasks pushed are the
logged ones, then the one popped and not yet logged, then the queue, so no
task is reordered, duplicated or skipped; after pushes of `A`, `B`, `C` the
calls made are the first so many of `A`, `B`, `C`. -/
theorem dispatch_is_fifo (s : State) (h : Reachable s) :
    (∃ rest, s.enqueued = s.logged ++ rest) ∧
    s.enqueued = s.logged ++ inFlight s.worker ++ s.log_queue ∧
    (∀ (i : Nat) (t : LogTask), s.logged[i]? = some t → s.enqueued[i]? = some t) ∧
    (∀ A B C : LogTask, s.enqueued = [A, B, C] →
      s.logged = [] ∨ s.logged = [A] ∨ s.logged = [A, B] ∨ s.logged = [A, B, C]) := by
  have hf := (inv_of_reachable s h).fifo
  have hp : s.enqueued = s.logged ++ (inFlight s.worker ++ s.log_queue) := by
    rw [hf, List.append_assoc]
  refine ⟨⟨_, hp⟩, hf, ?_, ?_⟩
  · intro i t hi
    rw [hp]
    have hlt : i < s.logged.length := (List.getElem?_eq_some_iff.mp hi).1
    rw [List.getElem?_append_left hlt]
    exact hi
  · intro A B C hABC
    rw [hABC] at hp
    generalize inFlight s.worker ++ s.log_queue = rest at hp
    generalize s.logged = lg at hp
    match lg, hp with
    | [], _ => exact Or.inl rfl
    | [a], hp =>
      simp only [List.cons_append, List.nil_append, List.cons.injEq] at hp
      exact Or.inr (Or.inl (by rw [hp.1]))
    | [a, b], hp =>
      simp only [List.cons_append, List.nil_append, List.cons.injEq] at hp
      exact Or.inr (Or.inr (Or.inl (by rw [hp.1, hp.2.1])))
    | [a, b, c], hp =>
      simp only [List.cons_append, List.nil_append, List.cons.injEq] at hp
      exact Or.inr (Or.inr (Or.inr (by rw [hp.1, hp.2.1, hp.2.2.1])))
    | a :: b :: c :: d :: lg', hp =>
      simp only [List.cons_append, List.cons.injEq] at hp
      exact absurd hp.2.2.2 (by simp)

/-- C8. In every state the program reaches in which the worker has returned,
`done_flag` is set, the queue is empty, and the tasks `logger->Log` was called
on are exactly the tasks pushed, each once and in the order of the pushes.
Once `done_flag` is set no step pushes a task, so these are the tasks pushed
before the finish block set it. -/
theorem worker_exits_after_drain (s : State) (h : Reachable s)
    (hfin : s.worker = .finished) :
    s.done_flag = true ∧ s.log_queue = [] ∧ s.logged = s.enqueued ∧
    (∀ t : State, Reachable t → t.done_flag = true →
      ∀ (a : Action) (t' : State), step a t = some t' → t'.enqueued = t.enqueued) := by
  have hi := inv_of_reachable s h
  obtain ⟨hd, hq⟩ := hi.finished_done hfin
  refine ⟨hd, hq, ?_, ?_⟩
  · have hf := hi.fifo
    rw [hfin, hq] at hf
    simpa [inFlight] using hf.symm
  · intro t ht htd a t' hstep
    exact enqueued_of_done a t t' (inv_of_reachable t ht) htd hstep

/-- C7, on a state in the middle of `demoSchedule`: two tasks pushed, the
first popped and not yet logged. -/
theorem dispatch_is_fifo_witness :
    Reachable demoMiddle ∧
    demoMiddle.enqueued = demoMiddle.logged ++ inFlight demoMiddle.worker ++ demoMiddle.log_queue :=
  ⟨⟨demoSchedule.take 14, run_demoMiddle⟩,
   (dispatch_is_fifo demoMiddle ⟨demoSchedule.take 14, run_demoMiddle⟩).2.1⟩

/-- C8, on the state `demoSchedule` ends in: the worker has returned, and the
three tasks pushed were logged in that order. -/
theorem worker_exits_after_drain_witness :
    Reachable demoFinal ∧ demoFinal.worker = .finished ∧
    demoFinal.done_flag = true ∧ demoFinal.log_queue = [] ∧
    demoFinal.logged = [T1, T2, T3] :=
  have h := worker_exits_after_drain demoFinal ⟨demoSchedule, run_demoSchedule⟩ rfl
  ⟨⟨demoSchedule, run_demoSchedule⟩, rfl, h.1, h.2.1, h.2.2.1⟩

end App

/-! ## Input lines -/

namespace App

open LoggerLib

theorem find_of_not_mem (ch : Char) (s : Str) (h : ch ∉ s) : find ch s = none := by
  induction s with
  | nil => rfl
  | cons c rest ih =>
    have hc : c ≠ ch := fun e => h (by simp [e])
    have hr : ch ∉ rest := fun e => h (by simp [e])
    simp [find, hc, ih hr]

theorem find_first (ch : Char) (pre post : Str) (h : ch ∉ pre) :
    find ch (pre ++ ch :: post) = some pre.length := by
  induction pre with
  | nil => simp [find]
  | cons c rest ih =>
    have hc : c ≠ ch := fun e => h (by simp [e])
    have hr : ch ∉ rest := fun e => h (by simp [e])
    simp [find, hc, ih hr]

theorem parse_line_split (d : LogLevel) (pre post : Str) (h : ':' ∉ pre) :
    parse_line d (pre ++ ':' :: post)
      = if pre.map tolower = "error".toList ∨ pre.map tolower = "warning".toList ∨
            pre.map tolower = "info".toList then
          { message := post, level := parse_level (pre.map tolower) }
        else { message := pre ++ ':' :: post, level := d } := by
  have hd : (pre ++ ':' :: post).drop (pre.length + 1) = post := by
    rw [List.drop_append]
    rfl
  simp only [parse_line, find_first ':' pre post h, substr, substrFrom, List.drop_zero,
    List.take_left, hd]

theorem tolower_keywords :
    "error".toList.map tolower = "error".toList ∧
    "warning".toList.map tolower = "warning".toList ∧
    "info".toList.map tolower = "info".toList := by decide

theorem parse_line_examples :
    parse_line LogLevel.Info "ERROR:disk full".toList
      = { message := "disk full".toList, level := LogLevel.Error } ∧
    parse_line LogLevel.Error "Info:x:y".toList
      = { message := "x:y".toList, level := LogLevel.Info } ∧
    parse_line LogLevel.Error "wArNiNg:".toList
      = { message := [], level := LogLevel.Warning } ∧
    parse_line LogLevel.Warning "note: hi".toList
      = { message := "note: hi".toList, level := LogLevel.Warning } ∧
    parse_line LogLevel.Warning ":abc".toList
      = { message := ":abc".toList, level := LogLevel.Warning } ∧
    parse_line LogLevel.Warning " error:x".toList
      = { message := " error:x".toList, level := LogLevel.Warning } ∧
    parse_line LogLevel.Warning "error".toList
      = { message := "error".toList, level := LogLevel.Warning } ∧
    read_task LogLevel.Warning (some "exit".toList) = none ∧
    read_task LogLevel.Warning none = none := by decide

/-- C11. For every line and default level `d`, the task `main` derives is:
when the line has no `:`, the whole line at level `d`; when it has one and the
text `pre` before the first `:` equals `error`, `warning` or `info` up to the
case of letters, the text after that `:` at the level of that name; when `pre`
equals none of the three up to case, the whole line at level `d`. Every line
with a `:` splits in that one way. This is the task pushed for every line that
`std::getline` gives, but for the line `exit`, which ends the loop. -/
theorem parse_line_derives_task (d : LogLevel) (line : Str) :
    (':' ∉ line → parse_line d line = { message := line, level := d }) ∧
    (':' ∈ line → ∃ pre post, ':' ∉ pre ∧ line = pre ++ ':' :: post) ∧
    (∀ pre post : Str, ':' ∉ pre → line = pre ++ ':' :: post →
      (equalsIgnoringCase pre "error".toList →
        parse_line d line = { message := post, level := LogLevel.Error }) ∧
      (equalsIgnoringCase pre "warning".toList →
        parse_line d line = { message := post, level := LogLevel.Warning }) ∧
      (equalsIgnoringCase pre "info".toList →
        parse_line d line = { message := post, level := LogLevel.Info }) ∧
      (¬ equalsIgnoringCase pre "error".toList →
        ¬ equalsIgnoringCase pre "warning".toList →
        ¬ equalsIgnoringCase pre "info".toList →
        parse_line d line = { message := line, level := d })) ∧
    (line ≠ "exit".toList → read_task d (some line) = some (parse_line d line)) := by
  obtain ⟨he, hw, hi⟩ := tolower_keywords
  refine ⟨?_, ?_, ?_, ?_⟩
  · intro h
    simp only [parse_line, find_of_not_mem ':' line h]
  · intro h
    obtain ⟨pre, post, hs, hn⟩ := List.eq_append_cons_of_mem h
    exact ⟨pre, post, hn, hs⟩
  · intro pre post hpre hline
    subst hline
    rw [parse_line_split d pre post hpre]
    unfold equalsIgnoringCase
    rw [he, hw, hi]
    refine ⟨?_, ?_, ?_, ?_⟩
    · intro h
      rw [if_pos (Or.inl h), h]
      rfl
    · intro h
      rw [if_pos (Or.inr (Or.inl h)), h]
      rfl
    · intro h
      rw [if_pos (Or.inr (Or.inr h)), h]
      rfl
    · intro h1 h2 h3
      rw [if_neg (fun h => h.elim h1 (fun h' => h'.elim h2 h3))]
  · intro h
    simp only [read_task, if_neg h]

end App

/-! ## Mutexes in `Logger::Log` -/

namespace LoggerLib

namespace Logger

variable {σ : Type}

theorem logLoop_locks_fold (ds : List (Option σ)) :
    ∀ i : Nat, (logLoop_locks i ds).foldl holdAfter [Mutex.destinations_mutex_]
      = [Mutex.destinations_mutex_] := by
  induction ds with
  | nil => intro i; rfl
  | cons dest rest ih =>
    intro i
    cases dest with
    | none => exact ih (i + 1)
    | some d =>
      simp only [logLoop_locks, WriteLogLine_locks, List.cons_append, List.nil_append,
        List.foldl_cons]
      have h : holdAfter (holdAfter [Mutex.destinations_mutex_]
          (.acquire (.destination i))) (.release (.destination i))
          = [Mutex.destinations_mutex_] := by
        simp [holdAfter]
      rw [h]
      exact ih (i + 1)

theorem logLoop_locks_held (ds : List (Option σ)) :
    ∀ (i k j : Nat), (logLoop_locks i ds)[k]? = some (.acquire (.destination j)) →
      ((logLoop_locks i ds).take k).foldl holdAfter [Mutex.destinations_mutex_]
        = [Mutex.destinations_mutex_] := by
  induction ds with
  | nil => intro i k j h; simp [logLoop_locks] at h
  | cons dest rest ih =>
    intro i k j h
    cases dest with
    | none => exact ih (i + 1) k j h
    | some d =>
      simp only [logLoop_locks, WriteLogLine_locks, List.cons_append, List.nil_append] at h ⊢
      match k, h with
      | 0, _ => rfl
      | 1, h => simp at h
      | k + 2, h =>
        simp only [List.getElem?_cons_succ] at h
        simp only [List.take_succ_cons, List.foldl_cons]
        have h' : holdAfter (holdAfter [Mutex.destinations_mutex_]
            (.acquire (.destination i))) (.release (.destination i))
            = [Mutex.destinations_mutex_] := by
          simp [holdAfter]
        rw [h']
        exact ih (i + 1) k j h

theorem logLoop_locks_no_list_lock (ds : List (Option σ)) :
    ∀ i : Nat, LockEvent.acquire Mutex.destinations_mutex_ ∉ logLoop_locks i ds := by
  induction ds with
  | nil => intro i; simp [logLoop_locks]
  | cons dest rest ih =>
    intro i
    cases dest with
    | none => exact ih (i + 1)
    | some d =>
      simp only [logLoop_locks, WriteLogLine_locks, List.cons_append, List.nil_append,
        List.mem_cons, not_or]
      exact ⟨by simp, by simp, ih (i + 1)⟩

theorem logLoop_locks_enters (ds : List (Option σ)) :
    ∀ i : Nat, (logLoop_locks i ds).filterMap LockEvent.enters
      = ((ds.enumFrom i).filter (fun p => p.2.isSome)).map Prod.fst := by
  induction ds with
  | nil => intro i; rfl
  | cons dest rest ih =>
    intro i
    cases dest with
    | none => simpa [logLoop_locks, List.enumFrom_cons, List.filter_cons] using ih (i + 1)
    | some d =>
      simp [logLoop_locks, WriteLogLine_locks, List.enumFrom_cons, List.filter_cons,
        LockEvent.enters, ih (i + 1)]

theorem Log_locks_accepted (level : LogLevel) (lg : Logger σ)
    (h : level.val ≤ lg.current_level_.val) :
    Log_locks level lg
      = .acquire .level_mutex_ :: .release .level_mutex_ :: .acquire .destinations_mutex_ ::
          (logLoop_locks 0 lg.destinations_ ++ [.release .destinations_mutex_]) := by
  unfold Log_locks
  rw [if_neg (by omega)]
  rfl

theorem Log_locks_rejected (level : LogLevel) (lg : Logger σ)
    (h : lg.current_level_.val < level.val) :
    Log_locks level lg = [.acquire .level_mutex_, .release .level_mutex_] := by
  unfold Log_locks
  rw [if_pos (by omega)]

/-- C12, as the code has it. In every call of `Logger::Log`: whenever a
destination's `WriteLogLine` is entered and takes that destination's own
mutex, the thread holds `destinations_mutex_` and no other mutex, so the two
are held nested, the destination's mutex inside; `level_mutex_` is released
before. `destinations_mutex_` itself is taken with no mutex held, so the
nesting has one order only. All mutexes are released when `Log` returns. The
destinations entered are those `Log` calls `WriteLogLine` on, in that order,
and none when the level check fails. -/
theorem Log_calls_under_list_lock (level : LogLevel) (lg : Logger σ) :
    (∀ k i : Nat, (Log_locks level lg)[k]? = some (.acquire (.destination i)) →
      heldAfter ((Log_locks level lg).take k) = [Mutex.destinations_mutex_]) ∧
    (∀ k : Nat, (Log_locks level lg)[k]? = some (.acquire .destinations_mutex_) →
      heldAfter ((Log_locks level lg).take k) = []) ∧
    heldAfter (Log_locks level lg) = [] ∧
    (∀ (I : ILogDestination σ) (ts m : Str),
      (Log_locks level lg).filterMap LockEvent.enters
        = (lg.Log I ts m level).state.calls.map Prod.fst) := by
  by_cases h : level.val ≤ lg.current_level_.val
  · rw [Log_locks_accepted level lg h]
    have hfold := logLoop_locks_fold lg.destinations_ 0
    refine ⟨?_, ?_, ?_, ?_⟩
    · intro k i hk
      match k, hk with
      | 0, hk => simp at hk
      | 1, hk => simp at hk
      | 2, hk => simp at hk
      | k + 3, hk =>
        simp only [List.getElem?_cons_succ] at hk
        simp only [heldAfter, List.take_succ_cons, List.foldl_cons]
        have h0 : holdAfter (holdAfter (holdAfter [] (.acquire .level_mutex_))
            (.release .level_mutex_)) (.acquire .destinations_mutex_)
            = [Mutex.destinations_mutex_] := by
          simp [holdAfter]
        rw [h0]
        by_cases hlt : k < (logLoop_locks 0 lg.destinations_).length
        · rw [List.getElem?_append_left hlt] at hk
          rw [List.take_append_of_le_length (le_of_lt hlt)]
          exact logLoop_locks_held lg.destinations_ 0 k i hk
        · rw [List.getElem?_append_right (by omega)] at hk
          match hn : k - (logLoop_locks 0 lg.destinations_).length, hk with
          | 0, hk => simp at hk
          | n + 1, hk => simp at hk
    · intro k hk
      match k, hk with
      | 0, hk => simp at hk
      | 1, hk => simp at hk
      | 2, _ => simp [heldAfter, holdAfter]
      | k + 3, hk =>
        simp only [List.getElem?_cons_succ] at hk
        have hmem := List.getElem?_mem hk
        rcases List.mem_append.mp hmem with hm | hm
        · exact absurd hm (logLoop_locks_no_list_lock lg.destinations_ 0)
        · simp at hm
    · simp only [heldAfter, List.foldl_cons, List.foldl_append, List.foldl_nil]
      have h0 : holdAfter (holdAfter (holdAfter [] (.acquire .level_mutex_))
          (.release .level_mutex_)) (.acquire .destinations_mutex_)
          = [Mutex.destinations_mutex_] := by
        simp [holdAfter]
      rw [h0, hfold]
      simp [holdAfter]
    · intro I ts m
      rw [Log_accepted I ts m level lg h]
      simp only [Outcome.state, List.filterMap_cons, LockEvent.enters, List.filterMap_append,
        logLoop_locks_enters, List.filterMap_nil, List.append_nil, List.map_map, List.enum]
      rfl
  · have h' : lg.current_level_.val < level.val := by omega
    rw [Log_locks_rejected level lg h']
    refine ⟨?_, ?_, ?_, ?_⟩
    · intro k i hk
      match k, hk with
      | 0, hk => simp at hk
      | 1, hk => simp at hk
      | k + 2, hk => simp at hk
    · intro k hk
      match k, hk with
      | 0, hk => simp at hk
      | 1, hk => simp at hk
      | k + 2, hk => simp at hk
    · simp [heldAfter, holdAfter]
    · intro I ts m
      rw [Log_rejected I ts m level lg h']
      simp [Outcome.state, LockEvent.enters]

end Logger

/-- C12 as stated fails: in `Log` of an `Error` message on a logger with one
`FileDestination`, the fourth mutex operation is the `lock_guard` on the
destination's own mutex in `WriteLogLine`, and at that point the thread holds
`destinations_mutex_`. -/
theorem Log_list_lock_released_counterexample :
    (Logger.Log_locks LogLevel.Error fileLogger)[3]?
      = some (.acquire (.destination 0)) ∧
    Mutex.destinations_mutex_ ∈
      heldAfter ((Logger.Log_locks LogLevel.Error fileLogger).take 3) ∧
    (fileLogger.Log FileDestination.asILogDestination "12:00".toList "m".toList
        LogLevel.Error).state.calls = [(0, "12:00 [Error] m".toList)] := by
  decide

end LoggerLib
